import Mathlib

/-!
Verification development for the read-path data-access layer of
`crates/storage/provider/src/providers/blockchain_provider.rs`
(`BlockchainProvider2`): a provider that merges an append-only durable
store (blocks `0 ..= boundary`) with an in-memory canonical overlay
(blocks `boundary+1 ..= tip`).

The provider code itself (threshold computation, range merging, walks)
is embedded directly from the source.  Its two collaborators — the
durable store accessor (`ProviderFactory` / `DatabaseProviderRO`) and
the in-memory overlay (`CanonicalInMemoryState` / `BlockState` from
`reth_chain_state`) — are not part of the source tree and are modelled
from the specification: the durable store holds a contiguous chain of
persisted blocks keyed by number with globally contiguous transaction
numbering, the overlay holds the blocks `boundary+1 ..= tip`.

Machine integers (`u64`, `usize`) are modelled as `Nat`; the one place
where the source can underflow (`len - 1` on an empty vector, and
`id - last_tx_num`) is modelled with explicit wrap-around at `2^64`,
the release-build (non-overflow-checked) semantics.
-/

set_option autoImplicit false

namespace RethProvider

/-- Header of a block: its number plus an abstract payload standing for
all remaining header fields. -/
structure Header where
  number : Nat
  payload : Nat
deriving DecidableEq, Repr

/-- A signed transaction: its hash plus an abstract payload. -/
structure Tx where
  txHash : Nat
  payload : Nat
deriving DecidableEq, Repr

/-- An executed, sealed block with derived receipts: the `BlockState`
node content.  Receipts are abstracted to `Nat`. -/
structure Block where
  header : Header
  blockHash : Nat
  body : List Tx
  receipts : List Nat
deriving DecidableEq, Repr

/-- The whole two-source state the provider reads:
`persisted` is the durable chain (the block at list index `n` has
number `n`), `overlay` is the in-memory canonical chain (the block at
list index `i` has number `persisted.length + i`), `tds` are the
durable total-difficulty entries, aligned with `persisted`. -/
structure ProviderState where
  persisted : List Block
  overlay : List Block
  tds : List Nat
deriving DecidableEq, Repr

/-- Error taxonomy of the provider (`ProviderError`), restricted to the
variants the embedded functions can produce. -/
inductive ProviderErr where
  | headerNotFound (n : Nat)
  | blockBodyIndicesNotFound (n : Nat)
  | stateForHashNotFound (h : Nat)
  | stateForNumberNotFound (n : Nat)
deriving DecidableEq, Repr

/-- Modulus for `u64` / `usize` arithmetic. -/
def USZ : Nat := 2 ^ 64

/-- Wrapping subtraction on `u64`/`usize`, the release-build semantics
of Rust's `a - b`. -/
def usizeWrapSub (a b : Nat) : Nat :=
  (a + (USZ - b % USZ)) % USZ

/-- The inclusive number range `start ..= e` as a list. -/
def rangeList (start e : Nat) : List Nat :=
  List.range' start (e + 1 - start)

/-- Total number of transactions in a list of blocks. -/
def bodyLenSum (bs : List Block) : Nat :=
  (bs.map (fun b => b.body.length)).sum

/-- Global transaction number of the first transaction of the block at
chain position `n` (sum of the body lengths of all earlier blocks). -/
def firstTxNumAt (bs : List Block) (n : Nat) : Nat :=
  bodyLenSum (bs.take n)

/-- `StoredBlockBodyIndices { first_tx_num, tx_count }`, the persisted
per-block transaction-numbering record. -/
structure StoredBlockBodyIndices where
  first_tx_num : Nat
  tx_count : Nat
deriving DecidableEq, Repr

/-- First transaction number of the next block
(`StoredBlockBodyIndices::next_tx_num`). -/
def StoredBlockBodyIndices.next_tx_num (i : StoredBlockBodyIndices) : Nat :=
  i.first_tx_num + i.tx_count

/-- Last transaction number of the block
(`StoredBlockBodyIndices::last_tx_num`, `first_tx_num + tx_count - 1`). -/
def StoredBlockBodyIndices.last_tx_num (i : StoredBlockBodyIndices) : Nat :=
  i.first_tx_num + i.tx_count - 1

/-! ## Durable store accessor

Modelled from the spec: the durable store exposes point/range queries
by block number/hash and by transaction number, plus
`last_block_number`; transaction numbering is globally contiguous and
chain-order monotonic; range queries return a prefix bounded by what
is persisted. -/

/-- Modelled from the spec: the durable store's `last_block_number`,
the highest persisted block number (`0` when nothing is persisted). -/
def dbLastBlockNumber (s : ProviderState) : Nat :=
  s.persisted.length - 1

/-- Modelled from the spec: the durable `StoredBlockBodyIndices` record
keyed by block number. -/
def dbBlockBodyIndices (s : ProviderState) (n : Nat) : Option StoredBlockBodyIndices :=
  (s.persisted[n]?).map fun b =>
    { first_tx_num := firstTxNumAt s.persisted n, tx_count := b.body.length }

/-- Modelled from the spec: the durable transaction-number → owning
block-number index. -/
def dbTransactionBlock (s : ProviderState) (id : Nat) : Option Nat :=
  (List.range s.persisted.length).find? fun n =>
    decide (id < firstTxNumAt s.persisted (n + 1))

/-- Modelled from the spec: the durable transaction-by-number query
(the `id`-th transaction in global order). -/
def dbTransactionById (s : ProviderState) (id : Nat) : Option Tx :=
  (s.persisted.flatMap (fun b => b.body))[id]?

/-- Scan a transaction list for a hash, numbering from `running`; this
is the in-block `for` loop shared by the hash-keyed lookups (returns
the running number at the first match). -/
def bodyFind (h : Nat) : List Tx → Nat → Option Nat
  | [], _ => none
  | tx :: rest, running =>
    if tx.txHash = h then some running else bodyFind h rest (running + 1)

/-- Modelled from the spec: the durable hash → transaction-number
index. -/
def dbTransactionId (s : ProviderState) (h : Nat) : Option Nat :=
  bodyFind h (s.persisted.flatMap (fun b => b.body)) 0

/-- Modelled from the spec: the durable transaction-by-hash query. -/
def dbTransactionByHash (s : ProviderState) (h : Nat) : Option Tx :=
  (s.persisted.flatMap (fun b => b.body)).find? fun tx => tx.txHash = h

/-- Modelled from the spec: the durable headers range query — the
persisted prefix of the inclusive range. -/
def dbHeadersRange (s : ProviderState) (start e : Nat) : List Header :=
  (rangeList start e).filterMap fun n => (s.persisted[n]?).map (fun b => b.header)

/-- Modelled from the spec: the durable block range query. -/
def dbBlockRange (s : ProviderState) (start e : Nat) : List Block :=
  (rangeList start e).filterMap fun n => s.persisted[n]?

/-- Modelled from the spec: the durable canonical-hashes range query. -/
def dbCanonicalHashesRange (s : ProviderState) (start e : Nat) : List Nat :=
  (rangeList start e).filterMap fun n => (s.persisted[n]?).map (fun b => b.blockHash)

/-- Modelled from the spec: the durable total-difficulty entry for a
block number. -/
def dbHeaderTd (s : ProviderState) (n : Nat) : Option Nat :=
  s.tds[n]?

/-- Modelled from the spec: the durable number → hash query. -/
def dbBlockHash (s : ProviderState) (n : Nat) : Option Nat :=
  (s.persisted[n]?).map fun b => b.blockHash

/-- Modelled from the spec: the durable receipt-by-number query. -/
def dbReceipt (s : ProviderState) (id : Nat) : Option Nat :=
  (s.persisted.flatMap (fun b => b.receipts))[id]?

/-- Modelled from the spec: the durable receipt-by-hash query. -/
def dbReceiptByHash (s : ProviderState) (h : Nat) : Option Nat :=
  ((s.persisted.flatMap fun b => b.body.zip b.receipts).find? fun p =>
    p.1.txHash = h).map fun p => p.2

/-- Modelled from the spec: the durable receipts-by-block query, hash
keyed. -/
def dbReceiptsByBlockHash (s : ProviderState) (h : Nat) : Option (List Nat) :=
  (s.persisted.find? fun b => b.blockHash = h).map fun b => b.receipts

/-! ## In-memory canonical overlay

Modelled from the spec: `CanonicalInMemoryState` holds the chain of
`BlockState` nodes for blocks `boundary+1 ..= tip` and supports
hash/number lookup and chain enumeration; its lowest number is
`boundary + 1` and walking it visits every number up to the tip. -/

/-- Modelled from the spec: overlay lookup by number
(`CanonicalInMemoryState::state_by_number`). -/
def state_by_number (s : ProviderState) (n : Nat) : Option Block :=
  if s.persisted.length ≤ n then s.overlay[n - s.persisted.length]? else none

/-- Modelled from the spec: overlay lookup by hash
(`CanonicalInMemoryState::state_by_hash`). -/
def state_by_hash (s : ProviderState) (h : Nat) : Option Block :=
  s.overlay.find? fun b => b.blockHash = h

/-- Modelled from the spec: overlay number → hash lookup
(`CanonicalInMemoryState::hash_by_number`). -/
def hash_by_number (s : ProviderState) (n : Nat) : Option Nat :=
  (state_by_number s n).map fun b => b.blockHash

/-- Modelled from the spec: the overlay's canonical head (tip) number
(`CanonicalInMemoryState::get_canonical_block_number`); equals the
boundary when the overlay is empty. -/
def get_canonical_block_number (s : ProviderState) : Nat :=
  s.persisted.length - 1 + s.overlay.length

/-- Modelled from the spec: hash-keyed transaction lookup inside the
overlay (`CanonicalInMemoryState::transaction_by_hash`), walking the
chain block-by-block in body order. -/
def mem_transaction_by_hash (s : ProviderState) (h : Nat) : Option Tx :=
  (s.overlay.flatMap (fun b => b.body)).find? fun tx => tx.txHash = h

/-! ## The provider itself

Everything below is embedded from
`blockchain_provider.rs` (`BlockchainProvider2`). -/

/-- The in-memory half of `block_state_by_tx_id`: the
`for block_number in first_in_memory_block_number..=last_in_memory_block_number`
loop.  Each iteration resolves `state_by_number` (returning `Ok(None)`
on a miss) and then runs the inner `for tx_index in 0..block.body.len()`
loop, which returns `(block_state, tx_index)` exactly when
`running ≤ id < running + body.len()` and otherwise advances the
running count by the body length. -/
def memWalk (s : ProviderState) (id : Nat) :
    List Nat → Nat → Except ProviderErr (Option (Option Block × Nat))
  | [], _ => .ok none
  | n :: rest, running =>
    match state_by_number s n with
    | none => .ok none
    | some b =>
      if running ≤ id ∧ id < running + b.body.length then
        .ok (some (some b, id - running))
      else
        memWalk s id rest (running + b.body.length)

/-- `BlockchainProvider2::block_state_by_tx_id` (lines 141–196):
returns the owning block state (`none` for a durable block) and the
in-block transaction index.  The durable branch computes
`tx_index = id - body_index.last_tx_num()` — wrapping `u64`
subtraction — exactly as the source does. -/
def block_state_by_tx_id (s : ProviderState) (id : Nat) :
    Except ProviderErr (Option (Option Block × Nat)) :=
  let last_database_block_number := dbLastBlockNumber s
  match dbBlockBodyIndices s last_database_block_number with
  | none => .ok none
  | some last_block_body_index =>
    let in_memory_tx_num := last_block_body_index.next_tx_num
    if id < in_memory_tx_num then
      match dbTransactionBlock s id with
      | none => .ok none
      | some block_number =>
        match dbBlockBodyIndices s block_number with
        | none => .ok none
        | some body_index =>
          let tx_index := usizeWrapSub id body_index.last_tx_num
          .ok (some (none, tx_index))
    else
      let first_in_memory_block_number := last_database_block_number + 1
      let last_in_memory_block_number := get_canonical_block_number s
      memWalk s id
        (rangeList first_in_memory_block_number last_in_memory_block_number)
        in_memory_tx_num

/-- `TransactionsProvider::transaction_by_id` (lines 760–772). -/
def transaction_by_id (s : ProviderState) (id : Nat) :
    Except ProviderErr (Option Tx) :=
  match block_state_by_tx_id s id with
  | .error e => .error e
  | .ok none => .ok none
  | .ok (some (some block_state, tx_index)) => .ok (block_state.body[tx_index]?)
  | .ok (some (none, _)) => .ok (dbTransactionById s id)

/-- `TransactionsProvider::transaction_block` (lines 813–819): keeps
only the in-memory block state (`and_then` over the first component)
and maps it to its block number. -/
def transaction_block (s : ProviderState) (id : Nat) :
    Except ProviderErr (Option Nat) :=
  match block_state_by_tx_id s id with
  | .error e => .error e
  | .ok r => .ok ((r.bind fun p => p.1).map fun b => b.header.number)

/-- The in-memory walk of `transaction_id`: the
`for block_number in ..` loop, failing with `StateForNumberNotFound`
on an overlay miss and scanning each body for the hash while advancing
`in_memory_tx_id`. -/
def txIdWalk (s : ProviderState) (h : Nat) :
    List Nat → Nat → Except ProviderErr (Option Nat)
  | [], _ => .ok none
  | n :: rest, running =>
    match state_by_number s n with
    | none => .error (.stateForNumberNotFound n)
    | some b =>
      match bodyFind h b.body running with
      | some id => .ok (some id)
      | none => txIdWalk s h rest (running + b.body.length)

/-- `TransactionsProvider::transaction_id` (lines 720–758): first
checks the durable hash index, then walks the in-memory chain starting
the running number at `last_database_tx_id + 1`. -/
def transaction_id (s : ProviderState) (h : Nat) :
    Except ProviderErr (Option Nat) :=
  match dbTransactionId s h with
  | some id => .ok (some id)
  | none =>
    let last_database_block_number := dbLastBlockNumber s
    match dbBlockBodyIndices s last_database_block_number with
    | none => .error (.blockBodyIndicesNotFound last_database_block_number)
    | some idx =>
      let in_memory_tx_id := idx.last_tx_num + 1
      txIdWalk s h
        (rangeList (last_database_block_number + 1) (get_canonical_block_number s))
        in_memory_tx_id

/-- `TransactionsProvider::transaction_by_hash` (lines 792–798):
overlay first, then the durable store. -/
def transaction_by_hash (s : ProviderState) (h : Nat) :
    Except ProviderErr (Option Tx) :=
  match mem_transaction_by_hash s h with
  | some tx => .ok (some tx)
  | none => .ok (dbTransactionByHash s h)

/-- The in-memory tail loop of `headers_range`: probe the overlay for
each remaining number, stopping at the first miss. -/
def memTakeHeaders (s : ProviderState) : List Nat → List Header
  | [] => []
  | n :: rest =>
    match state_by_number s n with
    | some b => b.header :: memTakeHeaders s rest
    | none => []

/-- `HeaderProvider::headers_range` (lines 284–311) on an inclusive
range: fetch the durable prefix, advance the range iterator with
`range.nth(db_headers.len() - 1)` (wrapping when the prefix is empty),
then take overlay headers until the first miss. -/
def headers_range (s : ProviderState) (start e : Nat) :
    Except ProviderErr (List Header) :=
  let db_headers := dbHeadersRange s start e
  let k := usizeWrapSub db_headers.length 1
  let remaining := rangeList (start + k + 1) e
  .ok (db_headers ++ memTakeHeaders s remaining)

/-- The in-memory tail loop of `canonical_hashes_range`. -/
def memTakeHashes (s : ProviderState) : List Nat → List Nat
  | [] => []
  | n :: rest =>
    match state_by_number s n with
    | some b => b.blockHash :: memTakeHashes s rest
    | none => []

/-- `BlockHashReader::canonical_hashes_range` (lines 403–432). -/
def canonical_hashes_range (s : ProviderState) (start e : Nat) :
    Except ProviderErr (List Nat) :=
  let db_hashes := dbCanonicalHashesRange s start e
  let k := usizeWrapSub db_hashes.length 1
  let remaining := rangeList (start + k + 1) e
  .ok (db_hashes ++ memTakeHashes s remaining)

/-- The in-memory tail loop of `block_range`. -/
def memTakeBlocks (s : ProviderState) : List Nat → List Block
  | [] => []
  | n :: rest =>
    match state_by_number s n with
    | some b => b :: memTakeBlocks s rest
    | none => []

/-- `BlockReader::block_range` (lines 630–653).  The source runs
`blocks.append(&mut db_blocks)` — which moves every element out of
`db_blocks` — and only then `range.nth(db_blocks.len() - 1)`; at that
point `db_blocks.len()` is always `0`, so the iterator is advanced by
`usizeWrapSub 0 1 + 1 = 2^64` numbers, past every realistic range. -/
def block_range (s : ProviderState) (start e : Nat) :
    Except ProviderErr (List Block) :=
  let db_blocks := dbBlockRange s start e
  let lenAfterAppend := 0
  let k := usizeWrapSub lenAfterAppend 1
  let remaining := rangeList (start + k + 1) e
  .ok (db_blocks ++ memTakeBlocks s remaining)

/-- Modelled from the spec: the durable `sealed_headers_while` scan,
instrumented — walks the persisted prefix of the range, returning the
taken headers together with the numbers the predicate was evaluated
on, stopping at the first miss or first rejection. -/
def dbSealedHeadersWhileAux (s : ProviderState) (p : Header → Bool) :
    List Nat → List Header × List Nat
  | [] => ([], [])
  | n :: rest =>
    match s.persisted[n]? with
    | none => ([], [])
    | some b =>
      if p b.header then
        let r := dbSealedHeadersWhileAux s p rest
        (b.header :: r.1, n :: r.2)
      else ([], [n])

/-- The in-memory tail loop of `sealed_headers_while`, instrumented
with the numbers the predicate was evaluated on: on an overlay hit the
predicate is evaluated, a rejection breaks without pushing. -/
def memWhileAux (s : ProviderState) (p : Header → Bool) :
    List Nat → List Header × List Nat
  | [] => ([], [])
  | n :: rest =>
    match state_by_number s n with
    | none => ([], [])
    | some b =>
      if p b.header then
        let r := memWhileAux s p rest
        (b.header :: r.1, n :: r.2)
      else ([], [n])

/-- `HeaderProvider::sealed_headers_while` (lines 353–388),
instrumented: the result carries, besides the returned headers, the
list of block numbers whose headers the predicate was evaluated on
(first the durable scan's evaluations, then the in-memory loop's). -/
def sealed_headers_while (s : ProviderState) (p : Header → Bool) (start e : Nat) :
    Except ProviderErr (List Header × List Nat) :=
  let db := dbSealedHeadersWhileAux s p (rangeList start e)
  let k := usizeWrapSub db.1.length 1
  let remaining := rangeList (start + k + 1) e
  let mem := memWhileAux s p remaining
  .ok (db.1 ++ mem.1, db.2 ++ mem.2)

/-- `HeaderProvider::header_td_by_number` (lines 265–282). -/
def header_td_by_number (s : ProviderState) (n : Nat) :
    Except ProviderErr (Option Nat) :=
  match dbHeaderTd s n with
  | some td => .ok (some td)
  | none =>
    if (hash_by_number s n).isSome then
      .ok (dbHeaderTd s (dbLastBlockNumber s))
    else
      .ok none

/-- `ReceiptProvider::receipt` (lines 913–925). -/
def receipt (s : ProviderState) (id : Nat) :
    Except ProviderErr (Option Nat) :=
  match block_state_by_tx_id s id with
  | .error e => .error e
  | .ok none => .ok none
  | .ok (some (some block_state, tx_index)) => .ok (block_state.receipts[tx_index]?)
  | .ok (some (none, _)) => .ok (dbReceipt s id)

/-- An assertion failure (a `debug_assert_eq!` that fired). -/
inductive AssertFail where
  | mismatch
deriving DecidableEq, Repr

/-- The canonical-chain loop of `receipt_by_hash`, parameterized over
`debugAssertions` (whether the build has `debug_assertions` enabled):
the body/receipt count comparison is a `debug_assert_eq!`, so it is
checked only when the flag is set. -/
def receiptChainWalk (debugAssertions : Bool) (s : ProviderState) (h : Nat) :
    List Block → Except AssertFail (Option Nat)
  | [] => .ok (dbReceiptByHash s h)
  | b :: rest =>
    if debugAssertions ∧ b.body.length ≠ b.receipts.length then
      .error .mismatch
    else
      match bodyFind h b.body 0 with
      | some tx_index => .ok (b.receipts[tx_index]?)
      | none => receiptChainWalk debugAssertions s h rest

/-- `ReceiptProvider::receipt_by_hash` (lines 927–947): walk the
canonical in-memory chain, then fall back to the durable store. -/
def receipt_by_hash (debugAssertions : Bool) (s : ProviderState) (h : Nat) :
    Except AssertFail (Option Nat) :=
  receiptChainWalk debugAssertions s h s.overlay

/-- A hash-or-number block key (`BlockHashOrNumber`). -/
inductive HashOrNumber where
  | hash (h : Nat)
  | number (n : Nat)
deriving DecidableEq, Repr

/-- `ReceiptProvider::receipts_by_block` (lines 949–964): overlay
first, then the durable store. -/
def receipts_by_block (s : ProviderState) (key : HashOrNumber) :
    Option (List Nat) :=
  match key with
  | .hash h =>
    match state_by_hash s h with
    | some block_state => some block_state.receipts
    | none => dbReceiptsByBlockHash s h
  | .number n =>
    match state_by_number s n with
    | some block_state => some block_state.receipts
    | none => (s.persisted[n]?).map fun b => b.receipts

/-- The `BlockId::Hash` arm of
`ReceiptProviderIdExt::receipts_by_block_id` (lines 978–990):
`require_canonical` is the optional EIP-1898 flag
(`rpc_block_hash.require_canonical.unwrap_or(false)`). -/
def receipts_by_block_id_hash (s : ProviderState) (h : Nat)
    (require_canonical : Option Bool) :
    Except ProviderErr (Option (List Nat)) :=
  let receipts := receipts_by_block s (.hash h)
  if receipts.isNone ∧ ¬ (require_canonical.getD false) then
    match state_by_hash s h with
    | none => .error (.stateForHashNotFound h)
    | some block_state => .ok (some block_state.receipts)
  else
    .ok receipts

/-- A resolved point-in-time state view, abstracted to its provenance:
either a durable historical view or an overlay-anchored view for a
block hash. -/
inductive StateView where
  | dbHistorical (h : Nat)
  | memOverlay (h : Nat)
deriving DecidableEq, Repr

/-- Modelled from the spec: the durable store's
`history_by_block_hash`, succeeding exactly on persisted block
hashes. -/
def dbHistoryByBlockHash (s : ProviderState) (h : Nat) : Option StateView :=
  (s.persisted.find? fun b => b.blockHash = h).map fun _ => .dbHistorical h

/-- `StateProviderFactory::history_by_block_hash` (lines 1208–1221):
durable historical view, else overlay-anchored view, else
`StateForHashNotFound`. -/
def history_by_block_hash (s : ProviderState) (h : Nat) :
    Except ProviderErr StateView :=
  match dbHistoryByBlockHash s h with
  | some v => .ok v
  | none =>
    match state_by_hash s h with
    | some _ => .ok (.memOverlay h)
    | none => .error (.stateForHashNotFound h)

/-- `BlockNumReader::best_block_number` (lines 443–445): the overlay's
canonical head number. -/
def best_block_number (s : ProviderState) : Nat :=
  get_canonical_block_number s

/-- `BlockHashReader::block_hash` (lines 395–401): overlay first, then
the durable store. -/
def block_hash (s : ProviderState) (n : Nat) : Option Nat :=
  match state_by_number s n with
  | some block_state => some block_state.blockHash
  | none => dbBlockHash s n

/-- `BlockchainProvider2::ensure_canonical_block` (lines 211–219). -/
def ensure_canonical_block (s : ProviderState) (n : Nat) :
    Except ProviderErr Unit :=
  if best_block_number s < n then .error (.headerNotFound n) else .ok ()

/-- `StateProviderFactory::history_by_block_number` (lines 1196–1206). -/
def history_by_block_number (s : ProviderState) (n : Nat) :
    Except ProviderErr StateView :=
  match ensure_canonical_block s n with
  | .error e => .error e
  | .ok _ =>
    match block_hash s n with
    | none => .error (.headerNotFound n)
    | some h => history_by_block_hash s h

/-- Extract the value of a successful result, with a default. -/
def exOk {ε α : Type} (e : Except ε α) (d : α) : α :=
  match e with
  | .ok v => v
  | .error _ => d

/-- The in-memory walk of `block_state_by_tx_id` re-expressed over the
overlay blocks themselves (rather than over block numbers resolved
through `state_by_number`); used to reason about `memWalk`. -/
def ovWalk (id : Nat) : List Block → Nat → Except ProviderErr (Option (Option Block × Nat))
  | [], _ => .ok none
  | b :: rest, running =>
    if running ≤ id ∧ id < running + b.body.length then
      .ok (some (some b, id - running))
    else
      ovWalk id rest (running + b.body.length)

/-- The in-memory walk of `transaction_id` re-expressed over the
overlay blocks themselves; used to reason about `txIdWalk`. -/
def txOvWalk (h : Nat) : List Block → Nat → Except ProviderErr (Option Nat)
  | [], _ => .ok none
  | b :: rest, running =>
    match bodyFind h b.body running with
    | some id => .ok (some id)
    | none => txOvWalk h rest (running + b.body.length)

/-! ## Concrete states used by witnesses and counterexamples -/

/-- A concrete block numbered `n`, with two transactions and two
receipts. -/
def mkBlock (n : Nat) : Block :=
  { header := { number := n, payload := 0 }
    blockHash := 1000 + n
    body := [{ txHash := 100 * n, payload := 0 }, { txHash := 100 * n + 1, payload := 0 }]
    receipts := [2 * n, 2 * n + 1] }

/-- The canonical test state: blocks `0 ..= 4` persisted, blocks
`5 ..= 10` in the overlay (tip `10`), total-difficulty entries for the
persisted blocks. -/
def S : ProviderState :=
  { persisted := (List.range 5).map mkBlock
    overlay := (List.range' 5 6).map mkBlock
    tds := [10, 11, 12, 13, 14] }

/-- A state where the same transaction hash `7` occurs both in the
durable store (block `0`, global number `0`) and in the overlay (block
`1`, global number `1`). -/
def sDup : ProviderState :=
  { persisted := [{ header := { number := 0, payload := 0 }, blockHash := 1000
                    body := [{ txHash := 7, payload := 0 }], receipts := [0] }]
    overlay := [{ header := { number := 1, payload := 0 }, blockHash := 1001
                  body := [{ txHash := 7, payload := 1 }], receipts := [1] }]
    tds := [10] }

/-- An overlay block with one transaction but no receipts: its
body/receipt counts disagree. -/
def misBlock : Block :=
  { header := { number := 1, payload := 0 }, blockHash := 1001
    body := [{ txHash := 7, payload := 0 }], receipts := [] }

/-- A state whose single overlay block is `misBlock`: corrupted
executed-block data. -/
def sMis : ProviderState :=
  { persisted := [{ header := { number := 0, payload := 0 }, blockHash := 1000
                    body := [], receipts := [] }]
    overlay := [misBlock]
    tds := [10] }

/-- The predicate of the C9 scenario: block number at most `8`. -/
def p9 : Header → Bool := fun h => decide (h.number ≤ 8)

/-! ## Transaction-numbering lemmas -/

theorem bodyLenSum_nil : bodyLenSum [] = 0 := rfl

theorem bodyLenSum_cons (b : Block) (t : List Block) :
    bodyLenSum (b :: t) = b.body.length + bodyLenSum t := by
  simp [bodyLenSum]

theorem bodyLenSum_append (l₁ l₂ : List Block) :
    bodyLenSum (l₁ ++ l₂) = bodyLenSum l₁ + bodyLenSum l₂ := by
  simp [bodyLenSum]

theorem firstTxNumAt_zero (bs : List Block) : firstTxNumAt bs 0 = 0 := rfl

theorem firstTxNumAt_succ {bs : List Block} {n : Nat} {b : Block}
    (h : bs[n]? = some b) :
    firstTxNumAt bs (n + 1) = firstTxNumAt bs n + b.body.length := by
  simp [firstTxNumAt, List.take_succ, h, bodyLenSum_append, bodyLenSum]

theorem firstTxNumAt_cons_succ (c : Block) (t : List Block) (k : Nat) :
    firstTxNumAt (c :: t) (k + 1) = c.body.length + firstTxNumAt t k := by
  simp [firstTxNumAt, List.take_succ_cons, bodyLenSum_cons]

theorem firstTxNumAt_le (bs : List Block) (n : Nat) :
    firstTxNumAt bs n ≤ bodyLenSum bs := by
  conv_rhs => rw [← List.take_append_drop n bs]
  rw [bodyLenSum_append]
  exact Nat.le_add_right _ _

theorem firstTxNumAt_append_of_le {ps ov : List Block} {n : Nat}
    (h : n ≤ ps.length) :
    firstTxNumAt (ps ++ ov) n = firstTxNumAt ps n := by
  simp [firstTxNumAt, List.take_append_eq_append_take,
    Nat.sub_eq_zero_of_le h]

theorem firstTxNumAt_append_of_ge {ps ov : List Block} {n : Nat}
    (h : ps.length ≤ n) :
    firstTxNumAt (ps ++ ov) n = bodyLenSum ps + firstTxNumAt ov (n - ps.length) := by
  simp [firstTxNumAt, List.take_append_eq_append_take,
    List.take_of_length_le h, bodyLenSum_append]

theorem flatMap_body_get :
    ∀ (bs : List Block) (n : Nat) (b : Block) (i : Nat),
      bs[n]? = some b → i < b.body.length →
      (bs.flatMap fun x => x.body)[firstTxNumAt bs n + i]? = b.body[i]? := by
  intro bs
  induction bs with
  | nil => intro n b i hn _; simp at hn
  | cons c t ih =>
    intro n b i hn hi
    cases n with
    | zero =>
      simp only [List.getElem?_cons_zero, Option.some.injEq] at hn
      subst hn
      simp only [firstTxNumAt_zero, Nat.zero_add, List.flatMap_cons]
      rw [List.getElem?_append_left (by omega)]
    | succ n =>
      simp only [List.getElem?_cons_succ] at hn
      rw [firstTxNumAt_cons_succ, List.flatMap_cons,
        List.getElem?_append_right (by omega)]
      have : c.body.length + firstTxNumAt t n + i - c.body.length
          = firstTxNumAt t n + i := by omega
      rw [this]
      exact ih n b i hn hi

/-- The boundary block's body-index record exists whenever anything is
persisted, and its `next_tx_num` — the threshold of the
transaction-number resolution — is the total durable transaction
count. -/
theorem dbBlockBodyIndices_last {s : ProviderState} (hne : s.persisted ≠ []) :
    ∃ idx, dbBlockBodyIndices s (dbLastBlockNumber s) = some idx ∧
      idx.next_tx_num = bodyLenSum s.persisted := by
  have hlen : 0 < s.persisted.length := List.length_pos.mpr hne
  have hlt : s.persisted.length - 1 < s.persisted.length := by omega
  have hget : s.persisted[s.persisted.length - 1]?
      = some (s.persisted[s.persisted.length - 1]) :=
    List.getElem?_eq_getElem hlt
  refine ⟨{ first_tx_num := firstTxNumAt s.persisted (s.persisted.length - 1),
            tx_count := (s.persisted[s.persisted.length - 1]).body.length }, ?_, ?_⟩
  · simp [dbBlockBodyIndices, dbLastBlockNumber, hget]
  · have hsucc := firstTxNumAt_succ hget
    have h1 : s.persisted.length - 1 + 1 = s.persisted.length := by omega
    rw [h1] at hsucc
    simp only [StoredBlockBodyIndices.next_tx_num]
    rw [← hsucc]
    simp [firstTxNumAt, List.take_length]

/-- A transaction number below the durable total has an owning durable
block. -/
theorem dbTransactionBlock_lt {s : ProviderState} {id : Nat}
    (h : id < bodyLenSum s.persisted) :
    ∃ m, dbTransactionBlock s id = some m ∧ m < s.persisted.length := by
  have hne : s.persisted ≠ [] := by
    intro hnil
    rw [hnil] at h
    simp [bodyLenSum] at h
  have hlen : 0 < s.persisted.length := List.length_pos.mpr hne
  have hmem : s.persisted.length - 1 ∈ List.range s.persisted.length :=
    List.mem_range.mpr (by omega)
  have hsat : decide (id < firstTxNumAt s.persisted (s.persisted.length - 1 + 1))
      = true := by
    have : s.persisted.length - 1 + 1 = s.persisted.length := by omega
    rw [this]
    simpa [firstTxNumAt, List.take_length] using h
  rcases hfind : (List.range s.persisted.length).find? fun n =>
      decide (id < firstTxNumAt s.persisted (n + 1)) with _ | m
  · rw [List.find?_eq_none] at hfind
    exact absurd hsat (hfind _ hmem)
  · exact ⟨m, hfind, List.mem_range.mp (List.mem_of_find?_eq_some hfind)⟩

/-! ## Walk lemmas -/

/-- `state_by_number` at offset `j` above the boundary is the overlay
entry at index `j`. -/
theorem state_by_number_offset (s : ProviderState) (j : Nat) :
    state_by_number s (s.persisted.length + j) = s.overlay[j]? := by
  simp [state_by_number]

/-- The number-indexed in-memory walk of `block_state_by_tx_id` equals
the walk over the overlay blocks. -/
theorem memWalk_bridge (s : ProviderState) (id : Nat) :
    ∀ (n j running : Nat), j + n = s.overlay.length →
      memWalk s id (List.range' (s.persisted.length + j) n) running
        = ovWalk id (s.overlay.drop j) running := by
  intro n
  induction n with
  | zero =>
    intro j running hj
    have : j = s.overlay.length := by omega
    subst this
    simp [memWalk, ovWalk, List.drop_length]
  | succ n ih =>
    intro j running hj
    have hjlt : j < s.overlay.length := by omega
    rw [List.range'_succ, List.drop_eq_getElem_cons hjlt]
    have hsbn : state_by_number s (s.persisted.length + j)
        = some (s.overlay[j]) := by
      rw [state_by_number_offset]
      exact List.getElem?_eq_getElem hjlt
    simp only [memWalk, ovWalk, hsbn]
    split
    · rfl
    · have h1 : s.persisted.length + j + 1 = s.persisted.length + (j + 1) := by omega
      rw [h1]
      exact ih (j + 1) _ (by omega)

/-- The walk finds the transaction at chain block `k`, local index `i`,
when the target number is the running base plus the cumulative count
before `k` plus `i`. -/
theorem ovWalk_found (id : Nat) :
    ∀ (ov : List Block) (k : Nat) (b : Block) (i running : Nat),
      ov[k]? = some b → i < b.body.length →
      id = running + firstTxNumAt ov k + i →
      ovWalk id ov running = .ok (some (some b, i)) := by
  intro ov
  induction ov with
  | nil => intro k b i running hk _ _; simp at hk
  | cons c t ih =>
    intro k b i running hk hi hid
    cases k with
    | zero =>
      simp only [List.getElem?_cons_zero, Option.some.injEq] at hk
      subst hk
      rw [firstTxNumAt_zero] at hid
      rw [ovWalk, if_pos (by omega)]
      have : id - running = i := by omega
      rw [this]
    | succ k =>
      simp only [List.getElem?_cons_succ] at hk
      rw [firstTxNumAt_cons_succ] at hid
      rw [ovWalk, if_neg (by omega)]
      exact ih k b i _ hk hi (by omega)

/-- The walk reports no match when the target number is at or above the
running base plus the total overlay count. -/
theorem ovWalk_none (id : Nat) :
    ∀ (ov : List Block) (running : Nat),
      running + bodyLenSum ov ≤ id → ovWalk id ov running = .ok none := by
  intro ov
  induction ov with
  | nil => intro running _; rfl
  | cons c t ih =>
    intro running hle
    rw [bodyLenSum_cons] at hle
    rw [ovWalk, if_neg (by omega)]
    exact ih _ (by omega)

/-- On a transaction number below the durable threshold,
`block_state_by_tx_id` resolves via the durable store: the block-state
component is `none`. -/
theorem block_state_by_tx_id_durable {s : ProviderState} {id : Nat}
    (hne : s.persisted ≠ []) (hlt : id < bodyLenSum s.persisted) :
    ∃ t, block_state_by_tx_id s id = .ok (some (none, t)) := by
  obtain ⟨idx, hidx, hnext⟩ := dbBlockBodyIndices_last hne
  obtain ⟨m, hm, hmlt⟩ := dbTransactionBlock_lt hlt
  have hm2 : s.persisted[m]? = some (s.persisted[m]) := List.getElem?_eq_getElem hmlt
  refine ⟨usizeWrapSub id
    (StoredBlockBodyIndices.last_tx_num
      { first_tx_num := firstTxNumAt s.persisted m,
        tx_count := (s.persisted[m]).body.length }), ?_⟩
  simp only [block_state_by_tx_id, hidx, hnext]
  rw [if_pos hlt]
  simp only [hm, dbBlockBodyIndices, hm2]
  rfl

/-- On a transaction number at or above the durable threshold,
`block_state_by_tx_id` is the in-memory walk over the overlay, with the
running count started at the durable total. -/
theorem block_state_by_tx_id_memory {s : ProviderState} {id : Nat}
    (hne : s.persisted ≠ []) (hge : bodyLenSum s.persisted ≤ id) :
    block_state_by_tx_id s id = ovWalk id s.overlay (bodyLenSum s.persisted) := by
  obtain ⟨idx, hidx, hnext⟩ := dbBlockBodyIndices_last hne
  have hlen : 0 < s.persisted.length := List.length_pos.mpr hne
  have hb := memWalk_bridge s id s.overlay.length 0 (bodyLenSum s.persisted)
    (by omega)
  rw [Nat.add_zero, List.drop_zero] at hb
  have hrange : rangeList (dbLastBlockNumber s + 1) (get_canonical_block_number s)
      = List.range' s.persisted.length s.overlay.length := by
    simp only [rangeList, dbLastBlockNumber, get_canonical_block_number]
    have h1 : s.persisted.length - 1 + 1 = s.persisted.length := by omega
    rw [h1]
    congr 1
    omega
  simp only [block_state_by_tx_id, hidx, hnext]
  rw [if_neg (by omega), hrange, hb]

/-! ## C1 -/

/-- C1: for every block of the merged chain — durable or in-memory —
and every local transaction index `i` in that block, `transaction_by_id`
at global number `first_tx_num(block) + i` returns the transaction at
local index `i`; moreover the resolution classifies ids below the
durable boundary's `next_tx_num` threshold as durable (block-state
component `none`, resolved via the durable store) and resolves the rest
by walking the in-memory chain with a running count, yielding the
owning in-memory block state and in-block index. -/
theorem c1_transaction_by_id_global_numbering
    (s : ProviderState) (n : Nat) (b : Block) (i : Nat)
    (hne : s.persisted ≠ [])
    (hb : (s.persisted ++ s.overlay)[n]? = some b)
    (hi : i < b.body.length) :
    transaction_by_id s (firstTxNumAt (s.persisted ++ s.overlay) n + i)
        = .ok (b.body[i]?)
    ∧ (n < s.persisted.length →
        ∃ t, block_state_by_tx_id s (firstTxNumAt (s.persisted ++ s.overlay) n + i)
            = .ok (some (none, t)))
    ∧ (s.persisted.length ≤ n →
        block_state_by_tx_id s (firstTxNumAt (s.persisted ++ s.overlay) n + i)
            = .ok (some (some b, i))) := by
  by_cases hcase : n < s.persisted.length
  · -- durable block
    have hbp : s.persisted[n]? = some b := by
      rwa [List.getElem?_append_left hcase] at hb
    have hfeq : firstTxNumAt (s.persisted ++ s.overlay) n = firstTxNumAt s.persisted n :=
      firstTxNumAt_append_of_le (Nat.le_of_lt hcase)
    have hlt_total : firstTxNumAt s.persisted n + i < bodyLenSum s.persisted := by
      have hsucc := firstTxNumAt_succ hbp
      have hle := firstTxNumAt_le s.persisted (n + 1)
      omega
    obtain ⟨t, hbs⟩ := block_state_by_tx_id_durable hne
      (show firstTxNumAt (s.persisted ++ s.overlay) n + i < bodyLenSum s.persisted by
        rw [hfeq]; exact hlt_total)
    refine ⟨?_, fun _ => ⟨t, hbs⟩, fun hge => absurd hge (by omega)⟩
    rw [hfeq] at hbs
    rw [hfeq]
    simp only [transaction_by_id, hbs, dbTransactionById]
    rw [flatMap_body_get s.persisted n b i hbp hi]
  · -- in-memory block
    have hcase' : s.persisted.length ≤ n := Nat.le_of_not_lt hcase
    have hbo : s.overlay[n - s.persisted.length]? = some b := by
      rwa [List.getElem?_append_right hcase'] at hb
    have hfeq := @firstTxNumAt_append_of_ge s.persisted s.overlay n hcase'
    have hge_total : bodyLenSum s.persisted
        ≤ firstTxNumAt (s.persisted ++ s.overlay) n + i := by
      rw [hfeq]; omega
    have hmem := block_state_by_tx_id_memory hne hge_total
    have hwalk := ovWalk_found (firstTxNumAt (s.persisted ++ s.overlay) n + i)
      s.overlay (n - s.persisted.length) b i (bodyLenSum s.persisted) hbo hi
      (by rw [hfeq])
    refine ⟨?_, fun hlt => absurd hlt hcase, fun _ => by rw [hmem, hwalk]⟩
    simp only [transaction_by_id, hmem, hwalk]

/-- Witness for C1: global number `firstTxNum(7) + 1` (an overlay
block) resolves to the transaction at local index `1` of block `7`. -/
theorem c1_transaction_by_id_global_numbering_witness :
    S.persisted ≠ []
    ∧ (S.persisted ++ S.overlay)[7]? = some (mkBlock 7)
    ∧ 1 < (mkBlock 7).body.length
    ∧ transaction_by_id S (firstTxNumAt (S.persisted ++ S.overlay) 7 + 1)
        = .ok ((mkBlock 7).body[1]?) :=
  ⟨by decide, by decide, by decide,
    (c1_transaction_by_id_global_numbering S 7 (mkBlock 7) 1
      (by decide) (by decide) (by decide)).1⟩

/-! ## C2 and C3: range merging across the boundary -/

/-- C2 (code bug): on the state with blocks `0 ..= 4` persisted and
`5 ..= 10` in memory, `headers_range` and `canonical_hashes_range` over
`0 ..= 10` return the fully merged chain, but `block_range` returns only
the durable blocks `0 ..= 4` — the source empties `db_blocks` with
`blocks.append(&mut db_blocks)` before reading `db_blocks.len()`, so the
range iterator is advanced past everything and the in-memory loop never
runs — even though the overlay holds block `5`. -/
theorem c2_block_range_drops_memory_blocks :
    block_range S 0 10 = .ok ((List.range 5).map mkBlock)
    ∧ headers_range S 0 10 = .ok ((List.range 11).map fun n => (mkBlock n).header)
    ∧ canonical_hashes_range S 0 10 = .ok ((List.range 11).map fun n => 1000 + n)
    ∧ (state_by_number S 5).isSome = true :=
  ⟨rfl, rfl, rfl, rfl⟩

/-- C3 (code bug): on a range lying entirely above the persisted
boundary the durable store returns an empty prefix, and `headers_range`
then returns the empty list — `db_headers.len() - 1` wraps and
`range.nth` consumes the whole range — even though the overlay holds
every block of the range (block `6` shown). -/
theorem c3_empty_durable_prefix_skips_overlay :
    headers_range S 6 10 = .ok []
    ∧ dbHeadersRange S 6 10 = []
    ∧ (state_by_number S 6).isSome = true :=
  ⟨rfl, rfl, rfl⟩

/-! ## C4: transaction_block -/

/-- C4 (code bug): global transaction number `0` belongs to durable
block `0` — the durable index maps it there and `transaction_by_id`
returns its transaction — yet `transaction_block` returns `None`,
because it discards the durable arm of `block_state_by_tx_id` with
`.and_then(|(block_state, _)| block_state)`. -/
theorem c4_transaction_block_none_for_durable_tx :
    transaction_block S 0 = .ok none
    ∧ transaction_by_id S 0 = .ok (some { txHash := 0, payload := 0 })
    ∧ dbTransactionBlock S 0 = some 0 :=
  ⟨rfl, rfl, rfl⟩

/-! ## C5: hash-keyed transaction lookup -/

theorem bodyFind_append (h : Nat) :
    ∀ (l₁ l₂ : List Tx) (r : Nat),
      bodyFind h (l₁ ++ l₂) r =
        match bodyFind h l₁ r with
        | some x => some x
        | none => bodyFind h l₂ (r + l₁.length) := by
  intro l₁
  induction l₁ with
  | nil => intro l₂ r; simp [bodyFind]
  | cons tx t ih =>
    intro l₂ r
    by_cases htx : tx.txHash = h
    · simp [bodyFind, htx]
    · simp only [List.cons_append, bodyFind, if_neg htx, List.append_eq]
      rw [ih]
      cases hbf : bodyFind h t (r + 1)
      · simp only [List.length_cons]
        congr 1
        omega
      · rfl

theorem bodyFind_shift (h : Nat) :
    ∀ (l : List Tx) (r : Nat),
      bodyFind h l r = (bodyFind h l 0).map fun j => r + j := by
  intro l
  induction l with
  | nil => intro r; simp [bodyFind]
  | cons tx t ih =>
    intro r
    by_cases htx : tx.txHash = h
    · simp [bodyFind, htx]
    · simp only [bodyFind, if_neg htx]
      rw [ih (r + 1), ih 1]
      cases hbf : bodyFind h t 0 <;> simp [hbf]
      omega

/-- The block-by-block overlay hash walk is the flat body scan. -/
theorem txOvWalk_eq_bodyFind (h : Nat) :
    ∀ (ov : List Block) (running : Nat),
      txOvWalk h ov running
        = .ok (bodyFind h (ov.flatMap fun b => b.body) running) := by
  intro ov
  induction ov with
  | nil => intro running; simp [txOvWalk, bodyFind]
  | cons c t ih =>
    intro running
    rw [List.flatMap_cons, bodyFind_append]
    simp only [txOvWalk]
    cases hbf : bodyFind h c.body running <;> simp [hbf, ih]

/-- The number-indexed in-memory walk of `transaction_id` equals the
walk over the overlay blocks. -/
theorem txIdWalk_bridge (s : ProviderState) (h : Nat) :
    ∀ (n j running : Nat), j + n = s.overlay.length →
      txIdWalk s h (List.range' (s.persisted.length + j) n) running
        = txOvWalk h (s.overlay.drop j) running := by
  intro n
  induction n with
  | zero =>
    intro j running hj
    have : j = s.overlay.length := by omega
    subst this
    simp [txIdWalk, txOvWalk, List.drop_length]
  | succ n ih =>
    intro j running hj
    have hjlt : j < s.overlay.length := by omega
    rw [List.range'_succ, List.drop_eq_getElem_cons hjlt]
    have hsbn : state_by_number s (s.persisted.length + j)
        = some (s.overlay[j]) := by
      rw [state_by_number_offset]
      exact List.getElem?_eq_getElem hjlt
    simp only [txIdWalk, txOvWalk, hsbn]
    cases hbf : bodyFind h (s.overlay[j]).body running
    · simp only []
      have h1 : s.persisted.length + j + 1 = s.persisted.length + (j + 1) := by omega
      rw [h1]
      exact ih (j + 1) _ (by omega)
    · rfl

/-- C5 (counterexample): a state where transaction hash `7` is present
both in the durable hash index (global number `0`) and in an overlay
block (where the overlay walk would yield global number `1`).
`transaction_id` returns the durable number `0`: it consults the
durable hash index first, not the overlay, contradicting the claimed
search order. -/
theorem c5_counterexample_transaction_id_db_first :
    mem_transaction_by_hash sDup 7 = some { txHash := 7, payload := 1 }
    ∧ txOvWalk 7 sDup.overlay (bodyLenSum sDup.persisted) = .ok (some 1)
    ∧ transaction_id sDup 7 = .ok (some 0)
    ∧ (0 : Nat) ≠ 1 :=
  ⟨rfl, rfl, rfl, by decide⟩

/-- C5 (amended): `transaction_by_hash` does search the overlay before
the durable store; `transaction_id` instead checks the durable hash
index first and only then walks the overlay — so for a hash the durable
index does not know, both take the result from the overlay, the global
number being the durable transaction total plus the hash's position in
the overlay's flattened bodies. -/
theorem c5_amended_hash_lookup_order :
    (∀ (s : ProviderState) (h : Nat) (tx : Tx),
      mem_transaction_by_hash s h = some tx →
      transaction_by_hash s h = .ok (some tx))
    ∧ (∀ (s : ProviderState) (h j : Nat),
      s.persisted ≠ [] → 0 < bodyLenSum s.persisted →
      dbTransactionId s h = none →
      bodyFind h (s.overlay.flatMap fun b => b.body) 0 = some j →
      transaction_id s h = .ok (some (bodyLenSum s.persisted + j))) := by
  constructor
  · intro s h tx hmem
    simp [transaction_by_hash, hmem]
  · intro s h j hne htot hdb hfind
    obtain ⟨idx, hidx, hnext⟩ := dbBlockBodyIndices_last hne
    have hlen : 0 < s.persisted.length := List.length_pos.mpr hne
    have hlast : idx.last_tx_num + 1 = bodyLenSum s.persisted := by
      simp only [StoredBlockBodyIndices.last_tx_num]
      simp only [StoredBlockBodyIndices.next_tx_num] at hnext
      omega
    have hrange : rangeList (dbLastBlockNumber s + 1) (get_canonical_block_number s)
        = List.range' s.persisted.length s.overlay.length := by
      simp only [rangeList, dbLastBlockNumber, get_canonical_block_number]
      have h1 : s.persisted.length - 1 + 1 = s.persisted.length := by omega
      rw [h1]
      congr 1
      omega
    have hb := txIdWalk_bridge s h s.overlay.length 0 (bodyLenSum s.persisted)
      (by omega)
    rw [Nat.add_zero, List.drop_zero] at hb
    simp only [transaction_id, hdb, hidx, hlast, hrange, hb,
      txOvWalk_eq_bodyFind, bodyFind_shift h _ (bodyLenSum s.persisted), hfind]
    rfl

/-- Witness for the amended C5: hash `501` lives only in overlay block
`5` (local index `1`, so flat overlay position `1`); both lookups take
their result from the overlay. -/
theorem c5_amended_hash_lookup_order_witness :
    transaction_by_hash S 501 = .ok (some { txHash := 501, payload := 0 })
    ∧ transaction_id S 501 = .ok (some (bodyLenSum S.persisted + 1)) :=
  ⟨c5_amended_hash_lookup_order.1 S 501 { txHash := 501, payload := 0 } (by decide),
   c5_amended_hash_lookup_order.2 S 501 1 (by decide) (by decide) (by decide)
     (by decide)⟩

/-! ## C6: the receipt_by_hash body/receipt-count assertion -/

/-- C6 (counterexample): `sMis`'s overlay block violates the
body/receipt-count invariant, yet with debug assertions disabled — as
in a release build — `receipt_by_hash` does not fail an assertion: it
returns a successful `none`.  The check is a `debug_assert_eq!`, not an
unconditional assertion. -/
theorem c6_counterexample_assert_debug_only :
    misBlock.body.length ≠ misBlock.receipts.length
    ∧ sMis.overlay = [misBlock]
    ∧ receipt_by_hash false sMis 7 = .ok none :=
  ⟨by decide, rfl, rfl⟩

/-- C6 (amended): the body/receipt-count comparison in
`receipt_by_hash` is a debug assertion: when debug assertions are
enabled, a mismatch in the first visited canonical block is an
assertion failure; when they are disabled, the lookup never fails an
assertion, whatever the state. -/
theorem c6_amended_assert_debug_only :
    (∀ (s : ProviderState) (h : Nat) (b : Block) (rest : List Block),
      s.overlay = b :: rest → b.body.length ≠ b.receipts.length →
      receipt_by_hash true s h = .error .mismatch)
    ∧ (∀ (s : ProviderState) (h : Nat),
      ∃ v, receipt_by_hash false s h = .ok v) := by
  constructor
  · intro s h b rest hov hmis
    simp [receipt_by_hash, hov, receiptChainWalk, hmis]
  · intro s h
    simp only [receipt_by_hash]
    suffices hall : ∀ l, ∃ v, receiptChainWalk false s h l = .ok v from
      hall s.overlay
    intro l
    induction l with
    | nil => exact ⟨_, rfl⟩
    | cons b t ih =>
      simp only [receiptChainWalk]
      rw [if_neg (by simp)]
      cases hbf : bodyFind h b.body 0 with
      | none => simpa [hbf] using ih
      | some i => exact ⟨b.receipts[i]?, by simp [hbf]⟩

/-- Witness for the amended C6 at the concrete corrupted state. -/
theorem c6_amended_assert_debug_only_witness :
    receipt_by_hash true sMis 7 = .error .mismatch
    ∧ ∃ v, receipt_by_hash false sMis 7 = .ok v :=
  ⟨c6_amended_assert_debug_only.1 sMis 7 misBlock [] rfl (by decide),
   c6_amended_assert_debug_only.2 sMis 7⟩

/-! ## C7: total difficulty for in-memory blocks -/

/-- C7: when no durable total-difficulty entry exists for a number but
the overlay knows a hash for it, `header_td_by_number` returns the
durable total difficulty recorded for the last persisted block number;
when neither source knows the number it returns `none`. -/
theorem c7_header_td_by_number_fallback :
    (∀ (s : ProviderState) (n : Nat),
      dbHeaderTd s n = none → (hash_by_number s n).isSome = true →
      header_td_by_number s n = .ok (dbHeaderTd s (dbLastBlockNumber s)))
    ∧ (∀ (s : ProviderState) (n : Nat),
      dbHeaderTd s n = none → hash_by_number s n = none →
      header_td_by_number s n = .ok none) := by
  constructor <;> intro s n h1 h2 <;> simp [header_td_by_number, h1, h2]

/-- Witness for C7: overlay block `7` gets the last persisted block's
total difficulty; the unknown number `20` gets `none`. -/
theorem c7_header_td_by_number_fallback_witness :
    (dbHeaderTd S 7 = none ∧ (hash_by_number S 7).isSome = true
      ∧ header_td_by_number S 7 = .ok (dbHeaderTd S (dbLastBlockNumber S)))
    ∧ (dbHeaderTd S 20 = none ∧ hash_by_number S 20 = none
      ∧ header_td_by_number S 20 = .ok none) :=
  ⟨⟨by decide, by decide,
    c7_header_td_by_number_fallback.1 S 7 (by decide) (by decide)⟩,
   ⟨by decide, by decide,
    c7_header_td_by_number_fallback.2 S 20 (by decide) (by decide)⟩⟩

/-! ## C8: receipt misses -/

/-- C8 (counterexample): for a block hash known to neither source,
`receipts_by_block_id` with the require-canonical flag unset does not
return a successful empty result: it falls into the overlay re-check
and fails with `StateForHashNotFound`. -/
theorem c8_counterexample_unknown_hash_errors :
    state_by_hash S 9999 = none
    ∧ dbReceiptsByBlockHash S 9999 = none
    ∧ receipts_by_block_id_hash S 9999 none
        = .error (.stateForHashNotFound 9999) :=
  ⟨rfl, rfl, rfl⟩

/-- The canonical-chain loop of `receipt_by_hash` falls through to the
durable store when every visited block has matching counts and none of
their bodies contains the hash. -/
theorem receiptChainWalk_not_found (da : Bool) (s : ProviderState) (h : Nat) :
    ∀ (l : List Block),
      l.all (fun b => b.body.length == b.receipts.length) = true →
      bodyFind h (l.flatMap fun b => b.body) 0 = none →
      receiptChainWalk da s h l = .ok (dbReceiptByHash s h) := by
  intro l
  induction l with
  | nil => intro _ _; rfl
  | cons b t ih =>
    intro hall hbf
    rw [List.all_cons, Bool.and_eq_true] at hall
    have hcnt : b.body.length = b.receipts.length := by
      have := hall.1
      simpa using this
    rw [List.flatMap_cons, bodyFind_append] at hbf
    have hb0 : bodyFind h b.body 0 = none := by
      cases hx : bodyFind h b.body 0
      · rfl
      · rw [hx] at hbf; exact absurd hbf (by simp)
    rw [hb0] at hbf
    have ht0 : bodyFind h (t.flatMap fun b => b.body) 0 = none := by
      rw [bodyFind_shift] at hbf
      cases hx : bodyFind h (t.flatMap fun b => b.body) 0
      · rfl
      · rw [hx] at hbf; exact absurd hbf (by simp)
    simp only [receiptChainWalk]
    rw [if_neg (by simp [hcnt]), hb0]
    exact ih hall.2 ht0

/-- C8 (amended): legitimate misses of `receipt` (a transaction number
beyond every transaction) and of `receipt_by_hash` (a hash in neither
source) are successful empty results; but `receipts_by_block_id` on a
hash unknown to both sources yields a successful empty result only when
the require-canonical flag is `Some(true)` — when the flag is unset or
`Some(false)` it is a `StateForHashNotFound` error. -/
theorem c8_amended_receipt_misses :
    (∀ (s : ProviderState) (id : Nat),
      s.persisted ≠ [] →
      bodyLenSum s.persisted + bodyLenSum s.overlay ≤ id →
      receipt s id = .ok none)
    ∧ (∀ (da : Bool) (s : ProviderState) (h : Nat),
      s.overlay.all (fun b => b.body.length == b.receipts.length) = true →
      bodyFind h (s.overlay.flatMap fun b => b.body) 0 = none →
      dbReceiptByHash s h = none →
      receipt_by_hash da s h = .ok none)
    ∧ (∀ (s : ProviderState) (h : Nat),
      state_by_hash s h = none →
      dbReceiptsByBlockHash s h = none →
      receipts_by_block_id_hash s h (some true) = .ok none
      ∧ receipts_by_block_id_hash s h none
          = .error (.stateForHashNotFound h)
      ∧ receipts_by_block_id_hash s h (some false)
          = .error (.stateForHashNotFound h)) := by
  refine ⟨?_, ?_, ?_⟩
  · intro s id hne hge
    have hmem := @block_state_by_tx_id_memory s id hne (by omega)
    have hwalk := ovWalk_none id s.overlay (bodyLenSum s.persisted) (by omega)
    simp only [receipt, hmem, hwalk]
  · intro da s h hall hbf hdb
    rw [receipt_by_hash, receiptChainWalk_not_found da s h s.overlay hall hbf, hdb]
  · intro s h hsh hdb
    have hrb : receipts_by_block s (.hash h) = none := by
      simp [receipts_by_block, hsh, hdb]
    refine ⟨?_, ?_, ?_⟩ <;> simp [receipts_by_block_id_hash, hrb, hsh]

/-- Witness for the amended C8: transaction number `22` is past every
transaction of `S`; hash `9999` is in neither source. -/
theorem c8_amended_receipt_misses_witness :
    receipt S 22 = .ok none
    ∧ receipt_by_hash true S 9999 = .ok none
    ∧ receipts_by_block_id_hash S 9999 (some true) = .ok none
    ∧ receipts_by_block_id_hash S 9999 none
        = .error (.stateForHashNotFound 9999) :=
  ⟨c8_amended_receipt_misses.1 S 22 (by decide) (by decide),
   c8_amended_receipt_misses.2.1 true S 9999 (by decide) (by decide) (by decide),
   (c8_amended_receipt_misses.2.2 S 9999 (by decide) (by decide)).1,
   (c8_amended_receipt_misses.2.2 S 9999 (by decide) (by decide)).2.1⟩

/-! ## C9: sealed_headers_while -/

/-- C9 (counterexample): on the chain with headers `0 ..= 10` (tip
`10`, boundary `4`) and the predicate "number ≤ 8",
`sealed_headers_while` over `0 ..= 10` does evaluate the predicate on
header `9` — the rejection that stops the scan is itself a predicate
evaluation — contradicting the claim that headers `9` and `10` are
never evaluated. -/
theorem c9_counterexample_predicate_evaluated_on_9 :
    ((exOk (sealed_headers_while S p9 0 10) ([], [])).2).contains 9 = true :=
  rfl

/-- Every header taken by the durable while-scan satisfies the
predicate. -/
theorem dbSealedHeadersWhileAux_all (s : ProviderState) (p : Header → Bool) :
    ∀ (ns : List Nat), ((dbSealedHeadersWhileAux s p ns).1).all p = true := by
  intro ns
  induction ns with
  | nil => rfl
  | cons n rest ih =>
    simp only [dbSealedHeadersWhileAux]
    cases hg : s.persisted[n]? with
    | none => rfl
    | some b =>
      by_cases hp : p b.header
      · simp [hp, ih]
      · simp [hp]

/-- Every header taken by the in-memory while-loop satisfies the
predicate. -/
theorem memWhileAux_all (s : ProviderState) (p : Header → Bool) :
    ∀ (ns : List Nat), ((memWhileAux s p ns).1).all p = true := by
  intro ns
  induction ns with
  | nil => rfl
  | cons n rest ih =>
    simp only [memWhileAux]
    cases hg : state_by_number s n with
    | none => rfl
    | some b =>
      by_cases hp : p b.header
      · simp [hp, ih]
      · simp [hp]

/-- C9 (amended): on the concrete scenario the scan returns exactly
headers `0 ..= 8`, evaluates the predicate on `9` (once, rejecting it)
and never on `10`; and in general every header any
`sealed_headers_while` scan returns satisfies the predicate — the scan
halts at the first rejection without including the rejected header. -/
theorem c9_amended_halt_on_first_rejection :
    sealed_headers_while S p9 0 10
      = .ok (((List.range 9).map fun n => (mkBlock n).header),
             [0, 1, 2, 3, 4, 5, 6, 7, 8, 9])
    ∧ ((exOk (sealed_headers_while S p9 0 10) ([], [])).2).contains 10 = false
    ∧ (∀ (s : ProviderState) (p : Header → Bool) (a b : Nat),
        ((exOk (sealed_headers_while s p a b) ([], [])).1).all p = true) := by
  refine ⟨rfl, rfl, ?_⟩
  intro s p a b
  simp only [sealed_headers_while, exOk, List.all_append, Bool.and_eq_true]
  exact ⟨dbSealedHeadersWhileAux_all s p _, memWhileAux_all s p _⟩

/-! ## C10: history_by_block_number -/

/-- C10: `history_by_block_number` rejects every number strictly above
`best_block_number` with a not-found error; every number at or below
it, whose canonical hash resolves, is delegated to
`history_by_block_hash` on that hash. -/
theorem c10_history_by_block_number_guard :
    (∀ (s : ProviderState) (n : Nat), best_block_number s < n →
      history_by_block_number s n = .error (.headerNotFound n))
    ∧ (∀ (s : ProviderState) (n h : Nat), n ≤ best_block_number s →
      block_hash s n = some h →
      history_by_block_number s n = history_by_block_hash s h) := by
  constructor
  · intro s n hgt
    simp [history_by_block_number, ensure_canonical_block, hgt]
  · intro s n h hle hbh
    simp [history_by_block_number, ensure_canonical_block, Nat.not_lt.mpr hle, hbh]

/-- Witness for C10: number `11` is above the best block `10` and is
rejected; number `7` resolves through its canonical hash `1007`. -/
theorem c10_history_by_block_number_guard_witness :
    history_by_block_number S 11 = .error (.headerNotFound 11)
    ∧ (7 ≤ best_block_number S
       ∧ block_hash S 7 = some 1007
       ∧ history_by_block_number S 7 = history_by_block_hash S 1007) :=
  ⟨c10_history_by_block_number_guard.1 S 11 (by decide),
   by decide, by decide,
   c10_history_by_block_number_guard.2 S 7 1007 (by decide) (by decide)⟩

end RethProvider
